import Mathlib

/-!
Verification of the DeepLinks guide generator (`generate_guide.py`).

Time model: UTC instants are integers counting seconds since an arbitrary
fixed UTC midnight, so `t % 3600` is the second-of-hour and `(t / 60) % 60`
the minute-of-hour of the wall clock (matching `datetime` field access).
Python's `//` and `%` agree with Lean's `/` and `%` on `Int` for positive
divisors, the only case used by the program.  In concrete examples below the
epoch is 2024-01-01T00:00:00Z, so 2024-01-01T12:00:00Z is `43200`.
-/

/-! ## Definitions: the embedded program -/

/-- One scheduled broadcast, as produced by `load_events_for_window` from an
`events` row (`@dataclass Event` in `generate_guide.py`).  `start`/`stop`
are UTC instants in seconds. -/
structure Event where
  id : String
  title : String
  sport : Option String
  league : Option String
  start : Int
  stop : Int
  status : Option String
deriving DecidableEq, Repr

/-- Model of `PLANNING_WINDOW_HOURS` (default `"3"`). -/
def PLANNING_WINDOW_HOURS : Int := 3

/-- Model of `POST_END_GRACE_MIN` (default `"65"`). -/
def POST_END_GRACE_MIN : Int := 65

/-- Model of `STANDBY_TILE_MIN` (default `"30"`). -/
def STANDBY_TILE_MIN : Int := 30

/-- Model of `PROVIDER_LABEL` (default `"ESPN+"`). -/
def PROVIDER_LABEL : String := "ESPN+"

/-- Model of `GROUP_TITLE` (default `"ESPN+"`). -/
def GROUP_TITLE : String := "ESPN+"

/-- Model of `minutes_between(a, b) = int(round((b - a).total_seconds() / 60.0))`.
For integral second counts the quotient `q + r/60` is exact in binary
floating point at the tie value `r = 30`, so Python's round-half-to-even is
modelled exactly: ties go to the even minute. -/
def minutesBetween (a b : Int) : Int :=
  if (b - a) % 60 < 30 then (b - a) / 60
  else if 30 < (b - a) % 60 then (b - a) / 60 + 1
  else if ((b - a) / 60) % 2 = 0 then (b - a) / 60 else (b - a) / 60 + 1

/-- The pre-event cursor alignment (`generate_xmltv`, lines 327-329):
`align_min = (cursor.minute // STANDBY_TILE_MIN) * STANDBY_TILE_MIN` and
`cursor.replace(minute=align_min, second=0, microsecond=0)`.  In the seconds
model, replacing minute and second of `t` by `am` and `0` yields
`t - t % 3600 + am * 60`. -/
def alignCursor (t : Int) : Int :=
  (t - t % 3600) + ((t / 60) % 60 / STANDBY_TILE_MIN) * STANDBY_TILE_MIN * 60

/-- One programme element of the guide document: `start`/`stop` instants and
the `<title>` text. -/
structure Block where
  start : Int
  stop : Int
  label : String
deriving DecidableEq, Repr

/-- One `while cursor < end: ...` filler loop of `generate_xmltv` (lines
334-339 and 358-363): emit the block `[cursor, min (cursor + tile) end]`
unless it is a sub-5-minute sliver, then advance the cursor one tile.
Fuel-driven so that the definition computes by kernel reduction;
`tileBlocks` supplies fuel `(end - cursor).toNat`, ample because every
iteration advances the cursor by `STANDBY_TILE_MIN * 60 = 1800 ≥ 1`. -/
def tileBlocksAux (lbl : String) (endT : Int) : Nat → Int → List Block
  | 0, _ => []
  | fuel + 1, cursor =>
    if cursor < endT then
      if 5 ≤ minutesBetween cursor (min (cursor + STANDBY_TILE_MIN * 60) endT) then
        ⟨cursor, min (cursor + STANDBY_TILE_MIN * 60) endT, lbl⟩ ::
          tileBlocksAux lbl endT fuel (cursor + STANDBY_TILE_MIN * 60)
      else tileBlocksAux lbl endT fuel (cursor + STANDBY_TILE_MIN * 60)
    else []

/-- The filler loop started at `cursor`, running until `endT`. -/
def tileBlocks (cursor endT : Int) (lbl : String) : List Block :=
  tileBlocksAux lbl endT (endT - cursor).toNat cursor

/-- Pre-event filler (`generate_xmltv` lines 324-339): "NOT YET STARTED"
tiles from the grid-aligned cursor 8 hours before `start` up to `start`. -/
def preBlocks (e : Event) : List Block :=
  tileBlocks (alignCursor (e.start - 8 * 3600)) e.start "NOT YET STARTED"

/-- The actual event programme (line 347): spans `[start, stop]`, titled with
the raw event title. -/
def eventBlock (e : Event) : Block := ⟨e.start, e.stop, e.title⟩

/-- Post-event filler (lines 351-363): "STREAM OFFLINE" tiles from `stop`
(the cursor is *not* re-aligned to the grid) up to `stop + 8h`. -/
def postBlocks (e : Event) : List Block :=
  tileBlocks e.stop (e.stop + 8 * 3600) "STREAM OFFLINE"

/-- The full programme sequence emitted on one event's synthetic channel, in
document order. -/
def channelBlocks (e : Event) : List Block :=
  preBlocks e ++ eventBlock e :: postBlocks e

/-- An event with `stop = start` (allowed by the claim's `stop >= start`),
whose channel violates strict ordering: the zero-length event block and the
first offline tile both start at 12:00:00Z. -/
def evDegenerate : Event := ⟨"deg", "Degenerate", none, none, 43200, 43200, none⟩

/-- A regular two-hour event used to instantiate the amended theorems. -/
def evRegular : Event := ⟨"reg", "Alpha vs Beta", some "Hockey", some "NHL", 43200, 50400, none⟩

/-- A one-minute event: `stop - start = 60` seconds. -/
def evShort : Event := ⟨"short", "Quick Event", none, none, 43200, 43260, none⟩

/-- An event ending at 12:10:00Z, which is not on the 30-minute clock grid. -/
def evOffGrid : Event := ⟨"off", "Offgrid", none, none, 43200, 43800, none⟩

/-- The `WHERE` clause of `load_events_for_window` (lines 218-226).  SQLite's
`julianday` is a strictly monotone injection from instants, applied to both
sides, so the comparison is comparison of the parsed instants:
`start <= now + window_hours` and `stop >= now - post_end_grace_min`. -/
def selectedForWindow (now windowHours graceMin : Int) (e : Event) : Bool :=
  decide (e.start ≤ now + windowHours * 3600) && decide (now - graceMin * 60 ≤ e.stop)

/-- One step of the dict comprehension `{e.id: e for e in rows}` (line 245):
a later row with an already-seen id overwrites the stored value in place,
a new id is appended. -/
def upsertById (acc : List Event) (e : Event) : List Event :=
  if acc.any (fun x => x.id == e.id) then acc.map (fun x => if x.id == e.id then e else x)
  else acc ++ [e]

/-- Model of `list({e.id: e for e in rows}.values())`: de-duplication by id with
last-value-wins, keys in first-occurrence order. -/
def dictById (rows : List Event) : List Event := rows.foldl upsertById []

/-- Model of `load_events_for_window`, modelled on already-parsed rows: keep the rows
selected by the time window, then de-duplicate by id.  The SQL `ORDER BY`
(and the final sort in `main`) only fix traversal order and are not modelled;
every claim about the reader is order-insensitive and, where duplicates
could matter, stated for duplicate-free id sets. -/
def load_events_for_window (now windowHours graceMin : Int) (rows : List Event) : List Event :=
  dictById (rows.filter (selectedForWindow now windowHours graceMin))

/-- Spec example: starts at 14:00Z, within the 3-hour window. -/
def evStartsInWindow : Event := ⟨"w1", "Starts in window", none, none, 50400, 57600, none⟩

/-- Spec example: ended at 10:40Z, 80 minutes before noon -- beyond grace. -/
def evEndedLong : Event := ⟨"w2", "Ended 80 min ago", none, none, 32400, 38400, none⟩

/-- Spec example: ended at 11:00Z, 60 minutes before noon -- within grace. -/
def evEndedRecent : Event := ⟨"w3", "Ended 60 min ago", none, none, 32400, 39600, none⟩

/-- The example rows offered to the reader at now = 12:00:00Z. -/
def windowExampleRows : List Event := [evStartsInWindow, evEndedLong, evEndedRecent]

/-- Python's `\s` / `str.isspace` character class (Unicode whitespace). -/
def pyIsSpace (c : Char) : Bool :=
  let n := c.toNat
  (n == 0x20) || (decide (0x09 ≤ n) && decide (n ≤ 0x0d)) ||
    (decide (0x1c ≤ n) && decide (n ≤ 0x1f)) || (n == 0x85) || (n == 0xa0) ||
    (n == 0x1680) || (decide (0x2000 ≤ n) && decide (n ≤ 0x200a)) || (n == 0x2028) ||
    (n == 0x2029) || (n == 0x202f) || (n == 0x205f) || (n == 0x3000)

/-- The character class of `_title_emoji_re` (line 92): the code-point
ranges 2000-206F, 2100-27FF and FE00-FE0F. -/
def emojiChar (c : Char) : Bool :=
  let n := c.toNat
  (decide (0x2000 ≤ n) && decide (n ≤ 0x206f)) ||
    (decide (0x2100 ≤ n) && decide (n ≤ 0x27ff)) ||
    (decide (0xfe00 ≤ n) && decide (n ≤ 0xfe0f))

/-- Model of `re.sub(r"\s+", " ", s)`: replace each maximal whitespace run by one
space.  Interior whitespace of a run is dropped; its last character becomes
`' '`. -/
def subSpaces : List Char → List Char
  | [] => []
  | [c] => if pyIsSpace c then [' '] else [c]
  | a :: b :: rest =>
    if pyIsSpace a && pyIsSpace b then subSpaces (b :: rest)
    else (if pyIsSpace a then ' ' else a) :: subSpaces (b :: rest)

/-- Leading-whitespace strip (half of Python `str.strip()`). -/
def lstrip (l : List Char) : List Char := l.dropWhile pyIsSpace

/-- Trailing-whitespace strip (Python `str.rstrip()`). -/
def rstrip (l : List Char) : List Char := (l.reverse.dropWhile pyIsSpace).reverse

/-- Python `str.strip()`. -/
def pyStrip (l : List Char) : List Char := rstrip (lstrip l)

/-- Model of `re.sub(r"\s+", " ", s).strip()` (line 98 and line 154). -/
def collapseStrip (l : List Char) : List Char := pyStrip (subSpaces l)

/-- Python `str.split()` with no argument: maximal non-whitespace runs. -/
def pyWordsAux (cur : List Char) : List Char → List (List Char)
  | [] => if cur.isEmpty then [] else [cur.reverse]
  | c :: cs =>
    if pyIsSpace c then
      if cur.isEmpty then pyWordsAux [] cs else cur.reverse :: pyWordsAux [] cs
    else pyWordsAux (c :: cur) cs

/-- Model of `s.split()`. -/
def pyWords (l : List Char) : List (List Char) := pyWordsAux [] l

/-- Python slicing `l[:k]`, including the negative-index convention. -/
def pyTake (l : List Char) (k : Int) : List Char :=
  if 0 ≤ k then l.take k.toNat else l.take ((l.length : Int) + k).toNat

/-- Model of `cut.rsplit(" ", 1)[0]`: everything before the last `' '`, or `cut`
itself when it contains no space. -/
def rsplitLastSpace (l : List Char) : List Char :=
  match l.reverse.dropWhile (fun c => !(c == ' ')) with
  | [] => l
  | _ :: restRev => restRev.reverse

/-- ASCII-alphabet test (`[A-Z]` under `re.I`). -/
def isAsciiAlpha (c : Char) : Bool :=
  (decide ('A' ≤ c) && decide (c ≤ 'Z')) || (decide ('a' ≤ c) && decide (c ≤ 'z'))

/-- Case-insensitive comparison against a lowercase pattern letter. -/
def lowEq (c d : Char) : Bool := c.toLower == d

/-- The rest of the alternative `\s+-\s+Mat\s+\d+$` of the suffix regex
(line 103) after its leading whitespace, specialised to whitespace-collapsed
input (every `\s+` is one `' '`). -/
def matchMatTail : List Char → Bool
  | c1 :: c2 :: m :: a :: t :: c6 :: ds =>
    (c1 == '-') && (c2 == ' ') && lowEq m 'm' && lowEq a 'a' &&
      lowEq t 't' && (c6 == ' ') && !ds.isEmpty && ds.all (fun c => c.isDigit)
  | _ => false

/-- The rest of the alternative `\s+\([A-Z]{3}\)$` under `re.I` (which
subsumes `\s+\(ESP\)`) after its leading whitespace, specialised to
collapsed input. -/
def matchLangTail : List Char → Bool
  | [c1, a, b, c, c5] =>
    (c1 == '(') && isAsciiAlpha a && isAsciiAlpha b &&
      isAsciiAlpha c && (c5 == ')')
  | _ => false

/-- One position of the `$`-anchored suffix alternation: a space followed by
one of the two alternatives running to the end of the string. -/
def suffixMatchHere : List Char → Bool
  | c0 :: rest => (c0 == ' ') && (matchMatTail rest || matchLangTail rest)
  | [] => false

/-- Model of `re.search` of the `$`-anchored suffix alternation: the least index at
which one alternative matches through to the end of the string. -/
def findSuffixIdx : List Char → Option Nat
  | [] => none
  | c :: cs =>
    if suffixMatchHere (c :: cs) then some 0
    else (findSuffixIdx cs).map (· + 1)

/-- Model of `shorten_title(s, max_len)` (lines 94-118). -/
def shortenTitleWith (maxLen : Nat) (s : String) : String :=
  if s.data.isEmpty then "Unknown Event"
  else
    let l := collapseStrip (s.data.filter (fun c => !emojiChar c))
    if l.length ≤ maxLen then String.mk l
    else
      match findSuffixIdx l with
      | some i =>
        let sfx := l.drop i
        let mainPart := l.take i
        let maxMain : Int := (maxLen : Int) - (sfx.length : Int)
        if (mainPart.length : Int) > maxMain then
          let cut := rsplitLastSpace (pyTake mainPart (maxMain + 1))
          String.mk (rstrip (if cut.isEmpty then pyTake mainPart maxMain else cut) ++ sfx)
        else String.mk (mainPart ++ sfx)
      | none =>
        let cut := rsplitLastSpace (l.take (maxLen + 1))
        String.mk (rstrip (if cut.isEmpty then l.take maxLen else cut) ++ ['.', '.', '.'])

/-- Model of `shorten_title` at its default `max_len = 38`. -/
def shorten_title (s : String) : String := shortenTitleWith 38 s

/-- ASCII alphanumeric test (`[A-Za-z0-9]`). -/
def pyIsAlnumA (c : Char) : Bool :=
  (decide ('A' ≤ c) && decide (c ≤ 'Z')) || (decide ('a' ≤ c) && decide (c ≤ 'z')) ||
    (decide ('0' ≤ c) && decide (c ≤ '9'))

/-- Model of `re.sub(r'#\s*\d+\s*', ' ', s)` (line 133): a `#` followed by optional
whitespace and at least one digit (plus trailing whitespace) collapses to
one space; a `#` not starting such a match is kept, scanning resumes after
it.  Fuel-driven (fuel = input length) so the definition computes. -/
def sub1Aux : Nat → List Char → List Char
  | 0, l => l
  | _ + 1, [] => []
  | fuel + 1, c :: rest =>
    if c = '#' then
      if ((rest.dropWhile pyIsSpace).takeWhile (fun x => x.isDigit)).isEmpty then
        '#' :: sub1Aux fuel rest
      else
        ' ' :: sub1Aux fuel
          (((rest.dropWhile pyIsSpace).dropWhile (fun x => x.isDigit)).dropWhile pyIsSpace)
    else c :: sub1Aux fuel rest

/-- The ranking-marker removal of `team_code`. -/
def sub1 (l : List Char) : List Char := sub1Aux l.length l

/-- Model of `re.sub(r'\(.*?\)', ' ', s)` (line 134): each `(`-to-nearest-`)` span
collapses to one space; a `(` with no later `)` is kept verbatim.  (`.` not
matching a newline is immaterial: `team_code` only ever receives newline-free
collapsed text.) -/
def sub2Aux : Nat → List Char → List Char
  | 0, l => l
  | _ + 1, [] => []
  | fuel + 1, c :: rest =>
    if c = '(' then
      if rest.any (fun x => x == ')') then
        ' ' :: sub2Aux fuel ((rest.dropWhile (fun x => !(x == ')'))).tail)
      else '(' :: sub2Aux fuel rest
    else c :: sub2Aux fuel rest

/-- The parenthetical removal of `team_code`. -/
def sub2 (l : List Char) : List Char := sub2Aux l.length l

/-- Model of `re.sub(r'[^A-Za-z0-9\s]', ' ', s)` (line 135). -/
def sub3 (l : List Char) : List Char :=
  l.map (fun c => if pyIsAlnumA c || pyIsSpace c then c else ' ')

/-- Model of `_STOPWORDS` (lines 126-129). -/
def STOPWORDS : List String :=
  ["university", "college", "state", "st", "saint", "of", "the", "fc", "sc", "cf",
   "club", "athletic", "women", "men", "ladies", "girls", "boys"]

/-- Model of `w.lower()` for the ASCII-alphanumeric words produced by `team_code`. -/
def lowerStr (w : List Char) : String := String.mk (w.map Char.toLower)

/-- Python `str.isupper` on such words: at least one (ASCII) letter and no
lowercase one. -/
def pyIsUpperWord (w : List Char) : Bool :=
  w.any isAsciiAlpha &&
    w.all (fun c => !isAsciiAlpha c || (decide ('A' ≤ c) && decide (c ≤ 'Z')))

/-- Model of `team_code` (lines 131-150) over character lists. -/
def team_codeL (name : List Char) : List Char :=
  let s := sub3 (sub2 (sub1 name))
  let allWords := pyWords s
  let kept := allWords.filter (fun w => !(STOPWORDS.contains (lowerStr w)))
  let words :=
    if !kept.isEmpty then kept
    else if !allWords.isEmpty then allWords
    else [['?', '?', '?']]
  match words.find?
      (fun w => decide (2 ≤ w.length) && decide (w.length ≤ 4) && pyIsUpperWord w) with
  | some w => (w.take 4).map Char.toUpper
  | none =>
    let acro := ((words.take 3).filterMap List.head?).map Char.toUpper
    if 2 ≤ acro.length ∧ acro.length ≤ 4 then acro
    else ((words.headD []).take 4).map Char.toUpper

/-- Model of `team_code` on strings. -/
def team_code (name : String) : String := String.mk (team_codeL name.data)

/-- The separator alternation `(vs\.?|v\.?|at|@)` in Python's matching
order (alternatives left to right, greedy optional dot), paired with the
flag "renders as '-'" (`group(2).lower().startswith(('v', ...))`). -/
def sepTokens : List (List Char × Bool) :=
  [(['v', 's', '.'], true), (['v', 's'], true), (['v', '.'], true), (['v'], true),
   (['a', 't'], false), (['@'], false)]

/-- Case-insensitive prefix test against a lowercase token. -/
def startsWithLower : List Char → List Char → Bool
  | [], _ => true
  | _ :: _, [] => false
  | t :: ts, c :: cs => (c.toLower == t) && startsWithLower ts cs

/-- Try the separator alternation at this position; each candidate must be
followed by `\s+` (one space in collapsed input) and a nonempty right side,
mirroring the backtracking into later alternatives.  Returns the token
length and the vs-versus-at flag. -/
def sepHere (l : List Char) : Option (Nat × Bool) :=
  sepTokens.findSome? fun p =>
    if startsWithLower p.1 l then
      match l.drop p.1.length with
      | ' ' :: _ :: _ => some (p.1.length, p.2)
      | _ => none
    else none

/-- Model of `re.search(r'(.+?)\s+(vs\.?|v\.?|at|@)\s+(.+)', t, re.I)` on collapsed
input: the least split index `i ≥ 1` such that position `i` holds a space
followed by a separator token, a space, and at least one character.
Returns `(i, token length, vs-flag)`. -/
def findSepAux : Nat → List Char → Option (Nat × Nat × Bool)
  | _, [] => none
  | i, c :: cs =>
    if c == ' ' && decide (1 ≤ i) then
      match sepHere cs with
      | some (len, isV) => some (i, len, isV)
      | none => findSepAux (i + 1) cs
    else findSepAux (i + 1) cs

/-- The generic-matchup split search. -/
def findSep (l : List Char) : Option (Nat × Nat × Bool) := findSepAux 0 l

/-- One position of `re.search(r'\s+-\s+Mat\s+(\d+)', t, re.I)` on
collapsed input; on success returns the greedily captured digit run. -/
def matHere : List Char → Option (List Char)
  | ' ' :: '-' :: ' ' :: m :: a :: t :: ' ' :: rest =>
    if lowEq m 'm' && lowEq a 'a' && lowEq t 't' &&
        !((rest.takeWhile (fun c => c.isDigit)).isEmpty) then
      some (rest.takeWhile (fun c => c.isDigit))
    else none
  | _ => none

/-- The leftmost mat-number match and its position. -/
def findMatAux : Nat → List Char → Option (Nat × List Char)
  | _, [] => none
  | i, c :: cs =>
    match matHere (c :: cs) with
    | some ds => some (i, ds)
    | none => findMatAux (i + 1) cs

/-- Model of `re.search` for the mat-number pattern. -/
def findMat (l : List Char) : Option (Nat × List Char) := findMatAux 0 l

/-- Model of `A ≤ c ≤ Z` (the case-sensitive `[A-Z]`). -/
def isUpperAZ (c : Char) : Bool := decide ('A' ≤ c) && decide (c ≤ 'Z')

/-- Model of `re.search(r'\(([A-Z]{3})\)$', t)` (line 166, case-sensitive): a
three-capital parenthesised tag at the very end; returns the text before
the match and the tag. -/
def langSplit (l : List Char) : Option (List Char × List Char) :=
  match l.reverse with
  | ')' :: c3 :: c2 :: c1 :: '(' :: restRev =>
    if isUpperAZ c1 && isUpperAZ c2 && isUpperAZ c3 then
      some (restRev.reverse, [c1, c2, c3])
    else none
  | _ => none

/-- The generic-matchup branch and crush fallback (lines 179-188). -/
def genericMatchup (t : List Char) : List Char :=
  match findSep t with
  | some (k, len, isV) =>
    (team_codeL (t.take k) ++
      (if isV then '-' else '@') :: team_codeL (t.drop (k + 1 + len + 1))).take 8
  | none => ((t.filter pyIsAlnumA).map Char.toUpper).take 8

/-- Model of `compact_matchup` (lines 152-188) over character lists. -/
def compact_matchupL (title : List Char) : List Char :=
  let t := collapseStrip title
  match findMat t with
  | some (i, ds) =>
    ((((pyStrip (t.take i)).filter pyIsAlnumA).map Char.toUpper).take 4 ++ 'M' :: ds).take 8
  | none =>
    match langSplit t with
    | some (baseRaw, lang) =>
      match findSep (pyStrip baseRaw) with
      | some (k, len, isV) =>
        (((team_codeL ((pyStrip baseRaw).take k) ++
            (if isV then '-' else '@') ::
              team_codeL ((pyStrip baseRaw).drop (k + 1 + len + 1))).take 5) ++
          lang).take 8
      | none => genericMatchup t
    | none => genericMatchup t

/-- Model of `compact_matchup` on strings. -/
def compact_matchup (title : String) : String := String.mk (compact_matchupL title.data)

/-- Model of `dl-<event id>`: the stable channel / tvg id (lines 279, 391). -/
def emitChannelId (e : Event) : String := "dl-" ++ e.id

/-- The two `display-name` entries of an event's channel (lines 273-283):
the shortened event title, then the provider label. -/
def channelDisplayNames (e : Event) : List String :=
  [shorten_title e.title, PROVIDER_LABEL]

/-- The channel ids of the guide document, one per event (lines 314-317). -/
def guideChannelIds (events : List Event) : List String := events.map emitChannelId

/-- Model of `deep_link_for` (lines 374-380), parameterised by the `AH4C`
environment toggle. -/
def deep_link_for (ah4c : Bool) (e : Event) : String :=
  if ah4c then "http://\x7b\x7b .IPADDRESS \x7d\x7d/play/tuner/" ++ e.id
  else "sportscenter://x-callback-url/showWatchStream?playID=" ++ e.id

/-- The `#EXTINF` metadata line of one playlist entry (lines 394-397);
grouped to the right so the constant prefix is outermost. -/
def extinfLine (e : Event) : String :=
  "#EXTINF:-1 tvg-id=\"dl-" ++
    (e.id ++ ("\" tvg-name=\"" ++ (compact_matchup e.title ++
      ("\" tvg-logo=\"\" group-title=\"" ++ (GROUP_TITLE ++
        ("\"," ++ compact_matchup e.title))))))

/-- The two output lines of one playlist entry. -/
def m3uEntry (ah4c : Bool) (e : Event) : List String :=
  [extinfLine e, deep_link_for ah4c e]

/-- Model of `generate_m3u` (lines 382-401) as its list of emitted lines: the
`#EXTM3U` header, then, per event in order, nothing when the event already
ended (`stop < now`), else its two entry lines. -/
def generate_m3u (ah4c : Bool) (now : Int) (events : List Event) : List String :=
  "#EXTM3U" :: events.flatMap (fun e => if e.stop < now then [] else m3uEntry ah4c e)

/-- The result of Python's `datetime.fromisoformat`: calendar fields plus
an optional UTC offset in minutes (`none` = naive). -/
structure PyDT where
  year : Nat
  month : Nat
  day : Nat
  hour : Nat
  minute : Nat
  second : Nat
  offMinutes : Option Int
deriving DecidableEq, Repr

/-- Two-digit decimal read. -/
def d2 (a b : Char) : Option Nat :=
  if a.isDigit && b.isDigit then some ((a.toNat - 48) * 10 + (b.toNat - 48)) else none

/-- Gregorian leap year. -/
def isLeap (y : Nat) : Bool := (y % 4 == 0 && !(y % 100 == 0)) || (y % 400 == 0)

/-- Days in a month, with the leap rule for February. -/
def daysInMonth (y m : Nat) : Nat :=
  if m == 2 then (if isLeap y then 29 else 28)
  else if m == 4 || m == 6 || m == 9 || m == 11 then 30 else 31

/-- Modelled from Python's documented `datetime.fromisoformat` (the
fragment this program can reach, per the library reference for the
pre-3.11 grammar `YYYY-MM-DD[*HH[:MM[:SS]]][+HH:MM]`, restricted to the
full `HH:MM:SS` time form the event store uses): a four-digit year `>= 1`,
month/day/time fields validated against the calendar, any single separator
character before the time, and an optional `±HH:MM` numeric offset.  A
trailing `Z` is *not* accepted by this grammar (3.10-era behaviour);
`parse_iso_z` rewrites it away before calling this. -/
def pyFromIso (s : String) : Option PyDT :=
  match s.data with
  | [y1, y2, y3, y4, '-', m1, m2, '-', dd1, dd2] =>
    match d2 y1 y2, d2 y3 y4, d2 m1 m2, d2 dd1 dd2 with
    | some yh, some yl, some mo, some dy =>
      if 1 ≤ yh * 100 + yl ∧ 1 ≤ mo ∧ mo ≤ 12 ∧ 1 ≤ dy ∧ dy ≤ daysInMonth (yh * 100 + yl) mo then
        some ⟨yh * 100 + yl, mo, dy, 0, 0, 0, none⟩
      else none
    | _, _, _, _ => none
  | y1 :: y2 :: y3 :: y4 :: '-' :: m1 :: m2 :: '-' :: dd1 :: dd2 :: _ :: h1 :: h2 ::
      ':' :: n1 :: n2 :: ':' :: s1 :: s2 :: rest =>
    match d2 y1 y2, d2 y3 y4, d2 m1 m2, d2 dd1 dd2, d2 h1 h2, d2 n1 n2, d2 s1 s2 with
    | some yh, some yl, some mo, some dy, some hh, some nn, some ss =>
      if 1 ≤ yh * 100 + yl ∧ 1 ≤ mo ∧ mo ≤ 12 ∧ 1 ≤ dy ∧
          dy ≤ daysInMonth (yh * 100 + yl) mo ∧ hh ≤ 23 ∧ nn ≤ 59 ∧ ss ≤ 59 then
        match rest with
        | [] => some ⟨yh * 100 + yl, mo, dy, hh, nn, ss, none⟩
        | [sign, o1, o2, ':', p1, p2] =>
          match d2 o1 o2, d2 p1 p2 with
          | some oh, some om =>
            if (sign == '+' || sign == '-') && decide (oh ≤ 23) && decide (om ≤ 59) then
              some ⟨yh * 100 + yl, mo, dy, hh, nn, ss,
                some (if sign == '-' then -(oh * 60 + om : Int) else (oh * 60 + om : Int))⟩
            else none
          | _, _ => none
        | _ => none
      else none
    | _, _, _, _, _, _, _ => none
  | _ => none

/-- Model of `parse_iso_z` (lines 79-83): rewrite a trailing `"Z"` to `"+00:00"`,
then delegate to `fromisoformat`.  The final `astimezone(timezone.utc)`
never raises (a naive result is interpreted in local time) and is the
identity on the calendar fields of an already-UTC (`+00:00`) result, so it
is not modelled further: acceptance is exactly `fromisoformat` acceptance
of the rewritten string. -/
def parse_iso_z (s : String) : Option PyDT :=
  if s.data.getLast? = some 'Z' then
    pyFromIso (String.mk (s.data.dropLast ++ ['+', '0', '0', ':', '0', '0']))
  else pyFromIso s

/-- An event with an empty title (a NULL title row becomes `""`, line 236). -/
def evUntitled : Event := ⟨"anon", "", some "Soccer", none, 43200, 50400, none⟩

/-- The normal form produced by `collapseStrip`: the only whitespace
character is `' '`, never twice in a row, and at neither end. -/
def TidyChars (l : List Char) : Prop :=
  (∀ c ∈ l, pyIsSpace c = true → c = ' ') ∧
    l.Chain' (fun a b => a = ' ' → b ≠ ' ') ∧
    (∀ c, l.head? = some c → c ≠ ' ') ∧
    (∀ c, l.getLast? = some c → c ≠ ' ')

/-! ## Theorems -/

example : minutesBetween 0 1800 = 30 := by decide

example : minutesBetween 0 270 = 4 := by decide

example : minutesBetween 0 271 = 5 := by decide

example : alignCursor 44000 = 43200 := by decide

example :
    postBlocks ⟨"x", "t", none, none, 0, 600, none⟩ ≠ [] := by decide

theorem minutesBetween_five_le {a b : Int} (h : 5 ≤ minutesBetween a b) :
    270 < b - a := by
  unfold minutesBetween at h
  split_ifs at h <;> omega

theorem mem_tileBlocksAux {lbl : String} {endT : Int} :
    ∀ (fuel : Nat) (cursor : Int) (b : Block), b ∈ tileBlocksAux lbl endT fuel cursor →
      cursor ≤ b.start ∧ b.stop ≤ endT ∧ b.stop ≤ b.start + STANDBY_TILE_MIN * 60 ∧
        5 ≤ minutesBetween b.start b.stop ∧ b.label = lbl := by
  intro fuel
  induction fuel with
  | zero => intro c b hb; simp [tileBlocksAux] at hb
  | succ n ih =>
    intro c b hb
    rw [tileBlocksAux] at hb
    split at hb
    · split at hb
      · rcases List.mem_cons.mp hb with h | h
        · subst h
          refine ⟨le_refl _, min_le_right _ _, min_le_left _ _, by assumption, rfl⟩
        · have := ih _ _ h
          have h30 : STANDBY_TILE_MIN = 30 := rfl
          exact ⟨by omega, this.2.1, this.2.2.1, this.2.2.2.1, this.2.2.2.2⟩
      · have := ih _ _ hb
        have h30 : STANDBY_TILE_MIN = 30 := rfl
        exact ⟨by omega, this.2.1, this.2.2.1, this.2.2.2.1, this.2.2.2.2⟩
    · simp at hb

theorem mem_tileBlocks {lbl : String} {cursor endT : Int} {b : Block}
    (hb : b ∈ tileBlocks cursor endT lbl) :
    cursor ≤ b.start ∧ b.stop ≤ endT ∧ b.stop ≤ b.start + STANDBY_TILE_MIN * 60 ∧
      5 ≤ minutesBetween b.start b.stop ∧ b.label = lbl :=
  mem_tileBlocksAux _ _ _ hb

theorem tileBlocks_start_lt_stop {lbl : String} {cursor endT : Int} {b : Block}
    (hb : b ∈ tileBlocks cursor endT lbl) : b.start < b.stop := by
  have h := (mem_tileBlocks hb).2.2.2.1
  have := minutesBetween_five_le h
  omega

theorem pairwise_tileBlocksAux {lbl : String} {endT : Int} :
    ∀ (fuel : Nat) (cursor : Int),
      (tileBlocksAux lbl endT fuel cursor).Pairwise (fun a b => a.stop ≤ b.start) := by
  intro fuel
  induction fuel with
  | zero => intro c; simp [tileBlocksAux]
  | succ n ih =>
    intro c
    rw [tileBlocksAux]
    split
    · split
      · refine List.Pairwise.cons ?_ (ih _)
        intro b hb
        have := (mem_tileBlocksAux _ _ _ hb).1
        have h2 : min (c + STANDBY_TILE_MIN * 60) endT ≤ c + STANDBY_TILE_MIN * 60 :=
          min_le_left _ _
        simpa using le_trans h2 this
      · exact ih _
    · simp

theorem pairwise_tileBlocks {lbl : String} {cursor endT : Int} :
    (tileBlocks cursor endT lbl).Pairwise (fun a b => a.stop ≤ b.start) :=
  pairwise_tileBlocksAux _ _

/-- Within one channel, consecutive blocks never run backwards: each block
ends no later than any later block begins (given a non-degenerate event). -/
theorem channelBlocks_separated (e : Event) (h : e.start ≤ e.stop) :
    (channelBlocks e).Pairwise (fun a b => a.stop ≤ b.start) := by
  unfold channelBlocks
  rw [List.pairwise_append]
  refine ⟨pairwise_tileBlocks, ?_, ?_⟩
  · rw [List.pairwise_cons]
    refine ⟨?_, pairwise_tileBlocks⟩
    intro b hb
    exact (mem_tileBlocks hb).1
  · intro a ha b hb
    have ha' := (mem_tileBlocks ha).2.1
    rcases List.mem_cons.mp hb with hb | hb
    · subst hb; exact ha'
    · have hb' := (mem_tileBlocks hb).1
      calc a.stop ≤ e.start := ha'
        _ ≤ e.stop := h
        _ ≤ b.start := hb'

theorem channelBlocks_pos (e : Event) (h : e.start < e.stop) :
    ∀ b ∈ channelBlocks e, b.start < b.stop := by
  intro b hb
  unfold channelBlocks at hb
  rcases List.mem_append.mp hb with hb | hb
  · exact tileBlocks_start_lt_stop hb
  · rcases List.mem_cons.mp hb with hb | hb
    · subst hb; exact h
    · exact tileBlocks_start_lt_stop hb

/-- C2 counterexample: with `stop = start` the emitted sequence is *not*
strictly ordered by start (the event block and the first "STREAM OFFLINE"
tile share their start instant), refuting the claim at `stop >= start`. -/
theorem c2_counterexample :
    ¬ (channelBlocks evDegenerate).Pairwise
        (fun a b => a.start < b.start ∧ min a.stop b.stop ≤ max a.start b.start) := by
  decide

/-- C2 (amended to `stop > start`): the blocks emitted on an event's channel
-- pre-event tiles, the event block, post-event tiles, in document order --
are strictly ordered by start time, and no two of them overlap for a
positive duration (`min` of stops is at most `max` of starts). -/
theorem c2_channel_blocks_strictly_ordered (e : Event) (h : e.start < e.stop) :
    (channelBlocks e).Pairwise
      (fun a b => a.start < b.start ∧ min a.stop b.stop ≤ max a.start b.start) := by
  have hsep := channelBlocks_separated e (le_of_lt h)
  have hpos := channelBlocks_pos e h
  refine List.Pairwise.imp_of_mem ?_ hsep
  intro a b ha hb hab
  refine ⟨lt_of_lt_of_le (hpos a ha) hab, ?_⟩
  exact le_trans (min_le_left _ _) (le_trans hab (le_max_right _ _))

/-- Witness for `c2_channel_blocks_strictly_ordered` at a concrete event. -/
theorem c2_witness :
    evRegular.start < evRegular.stop ∧
      (channelBlocks evRegular).Pairwise
        (fun a b => a.start < b.start ∧ min a.stop b.stop ≤ max a.start b.start) :=
  ⟨by decide, c2_channel_blocks_strictly_ordered evRegular (by decide)⟩

/-- C3 counterexample: the event block itself is emitted unconditionally
(line 347 applies no sliver check), so a one-minute event yields an emitted
block of duration under 5 minutes. -/
theorem c3_counterexample :
    ∃ b ∈ channelBlocks evShort, minutesBetween b.start b.stop < 5 ∧ b.stop - b.start < 300 := by
  refine ⟨eventBlock evShort, by decide, by decide⟩

/-- C3 (amended): the 5-minute suppression applies to the *filler* blocks
only.  Every emitted pre- or post-event filler block has a rounded duration
of at least 5 minutes (hence a true duration above 4 minutes 30 seconds, so
`stop > start`); the event block is emitted unconditionally with its raw
span `[start, stop]`, however short. -/
theorem c3_filler_duration (e : Event) (b : Block)
    (hb : b ∈ preBlocks e ∨ b ∈ postBlocks e) :
    5 ≤ minutesBetween b.start b.stop ∧ 270 < b.stop - b.start ∧
      eventBlock e ∈ channelBlocks e := by
  have hmem : eventBlock e ∈ channelBlocks e := by
    unfold channelBlocks
    exact List.mem_append.mpr (Or.inr (List.mem_cons_self _ _))
  rcases hb with hb | hb
  · have h := (mem_tileBlocks hb).2.2.2.1
    exact ⟨h, minutesBetween_five_le h, hmem⟩
  · have h := (mem_tileBlocks hb).2.2.2.1
    exact ⟨h, minutesBetween_five_le h, hmem⟩

/-- Witness for `c3_filler_duration`: the first pre-event tile of the
regular event. -/
theorem c3_witness :
    5 ≤ minutesBetween (14400 : Int) 16200 ∧ (270 : Int) < 16200 - 14400 ∧
      eventBlock evRegular ∈ channelBlocks evRegular := by
  have h := c3_filler_duration evRegular ⟨14400, 16200, "NOT YET STARTED"⟩ (Or.inl (by decide))
  exact h

theorem minutesBetween_tile (c : Int) : minutesBetween c (c + 1800) = 30 := by
  have h : c + 1800 - c = 1800 := by ring
  unfold minutesBetween
  rw [h]
  norm_num

/-- A filler loop whose horizon is an exact number of tiles emits exactly
that many full tiles, each anchored `k` tiles after the starting cursor. -/
theorem tileBlocksAux_exact {lbl : String} :
    ∀ (n fuel : Nat) (c : Int), n ≤ fuel →
      tileBlocksAux lbl (c + 1800 * ((n : Nat) : Int)) fuel c =
        (List.range n).map
          (fun k : Nat => Block.mk (c + 1800 * (k : Int)) (c + 1800 * ((k : Int) + 1)) lbl) := by
  intro n
  induction n with
  | zero =>
    intro fuel c _
    cases fuel with
    | zero => simp [tileBlocksAux]
    | succ m => simp [tileBlocksAux]
  | succ n ih =>
    intro fuel c hf
    cases fuel with
    | zero => exact absurd hf (by omega)
    | succ m =>
      have hst : STANDBY_TILE_MIN * 60 = (1800 : Int) := rfl
      have hc : c < c + 1800 * (((n + 1 : Nat)) : Int) := by push_cast; omega
      rw [tileBlocksAux, hst, if_pos hc]
      have hmin : min (c + 1800) (c + 1800 * (((n + 1 : Nat)) : Int)) = c + 1800 := by
        apply min_eq_left; push_cast; omega
      rw [hmin, minutesBetween_tile, if_pos (by norm_num)]
      have hrw : c + 1800 * (((n + 1 : Nat)) : Int) = (c + 1800) + 1800 * ((n : Nat) : Int) := by
        push_cast; ring
      rw [hrw, ih m (c + 1800) (by omega)]
      rw [List.range_succ_eq_map]
      simp only [List.map_cons, List.map_map]
      congr 1
      · congr 1
        push_cast; ring
      · apply List.map_congr_left
        intro k _
        simp only [Function.comp]
        congr 1 <;> (push_cast; ring)

/-- The post-event filler fully computed: exactly 16 full offline tiles,
tile `k` spanning `[stop + k*30min, stop + (k+1)*30min]`. -/
theorem postBlocks_eq_offline_tiles (e : Event) :
    postBlocks e =
      (List.range 16).map
        (fun k : Nat =>
          Block.mk (e.stop + 1800 * (k : Int)) (e.stop + 1800 * ((k : Int) + 1))
            "STREAM OFFLINE") := by
  unfold postBlocks tileBlocks
  have h1 : e.stop + 8 * 3600 = e.stop + 1800 * (((16 : Nat)) : Int) := by norm_num
  have h2 : e.stop + 1800 * (((16 : Nat)) : Int) - e.stop = (28800 : Int) := by push_cast; ring
  rw [h1, h2]
  exact tileBlocksAux_exact 16 28800 e.stop (by norm_num)

/-- C5 (amended): post-event "STREAM OFFLINE" tiles are anchored to the
event's *stop* instant, not re-aligned to the clock grid: tile `k` spans
exactly `[stop + k*30min, stop + (k+1)*30min]`, and the 8-hour horizon is an
exact multiple of the tile size, so clipping and the 5-minute sliver rule
are vacuously satisfied (all 16 tiles are full). -/
theorem c5_post_blocks_anchor (e : Event) :
    postBlocks e =
      (List.range 16).map
        (fun k : Nat =>
          Block.mk (e.stop + 1800 * (k : Int)) (e.stop + 1800 * ((k : Int) + 1))
            "STREAM OFFLINE") :=
  postBlocks_eq_offline_tiles e

/-- C5 counterexample: for a stop instant off the 30-minute clock grid, the
first post-event tile starts at the stop instant itself, not at a multiple
of the tile size -- post-event tiles are *not* grid-aligned as claimed. -/
theorem c5_counterexample :
    ∃ b ∈ postBlocks evOffGrid,
      b.label = "STREAM OFFLINE" ∧ ¬ b.start % (STANDBY_TILE_MIN * 60) = 0 := by
  decide

theorem foldl_upsertById (rows : List Event) :
    ∀ acc : List Event, (((acc ++ rows).map Event.id)).Nodup →
      rows.foldl upsertById acc = acc ++ rows := by
  induction rows with
  | nil => intro acc _; simp
  | cons e rs ih =>
    intro acc h
    have hmaps : ((acc.map Event.id) ++ e.id :: rs.map Event.id).Nodup := by
      simpa using h
    have hnotmem : e.id ∉ acc.map Event.id := by
      intro hmem
      exact List.disjoint_of_nodup_append hmaps hmem (List.mem_cons_self _ _)
    rw [List.foldl_cons]
    have hany : ¬ (acc.any (fun x => x.id == e.id) = true) := by
      rw [List.any_eq_true]
      rintro ⟨x, hx, hxe⟩
      exact hnotmem (by
        rw [beq_iff_eq] at hxe
        rw [← hxe]
        exact List.mem_map_of_mem Event.id hx)
    rw [show upsertById acc e = acc ++ [e] from if_neg hany]
    have := ih (acc ++ [e]) (by simpa using h)
    simpa using this

theorem dictById_eq_of_nodup {rows : List Event}
    (h : (rows.map Event.id).Nodup) : dictById rows = rows := by
  have := foldl_upsertById rows [] (by simpa using h)
  simpa [dictById] using this

/-- C1: with window = 3 h and grace = 65 min, an event is selected iff its
interval `[start, stop]` meets `[now - grace, now + window]` (for events
with `start ≤ stop`); the reader returns exactly the selected rows (for
duplicate-free ids); and on the spec's example at now = 12:00:00Z the
14:00-16:00 event and the ended-at-11:00 event are returned while the
ended-at-10:40 event is not. -/
theorem c1_window_selection :
    (∀ (now : Int) (e : Event), e.start ≤ e.stop →
        (selectedForWindow now PLANNING_WINDOW_HOURS POST_END_GRACE_MIN e = true ↔
          ∃ t : Int, e.start ≤ t ∧ t ≤ e.stop ∧
            now - POST_END_GRACE_MIN * 60 ≤ t ∧ t ≤ now + PLANNING_WINDOW_HOURS * 3600)) ∧
    (∀ (now : Int) (rows : List Event) (e : Event), (rows.map Event.id).Nodup →
        (e ∈ load_events_for_window now PLANNING_WINDOW_HOURS POST_END_GRACE_MIN rows ↔
          e ∈ rows ∧ selectedForWindow now PLANNING_WINDOW_HOURS POST_END_GRACE_MIN e = true)) ∧
    evStartsInWindow ∈
      load_events_for_window 43200 PLANNING_WINDOW_HOURS POST_END_GRACE_MIN windowExampleRows ∧
    evEndedLong ∉
      load_events_for_window 43200 PLANNING_WINDOW_HOURS POST_END_GRACE_MIN windowExampleRows ∧
    evEndedRecent ∈
      load_events_for_window 43200 PLANNING_WINDOW_HOURS POST_END_GRACE_MIN windowExampleRows := by
  refine ⟨?_, ?_, by decide, by decide, by decide⟩
  · intro now e hse
    have hw : PLANNING_WINDOW_HOURS = 3 := rfl
    have hg : POST_END_GRACE_MIN = 65 := rfl
    unfold selectedForWindow
    rw [Bool.and_eq_true, decide_eq_true_eq, decide_eq_true_eq]
    constructor
    · rintro ⟨h1, h2⟩
      exact ⟨max e.start (now - POST_END_GRACE_MIN * 60), le_max_left _ _,
        max_le hse h2, le_max_right _ _, max_le h1 (by omega)⟩
    · rintro ⟨t, ht1, ht2, ht3, ht4⟩
      exact ⟨le_trans ht1 ht4, le_trans ht3 ht2⟩
  · intro now rows e hnd
    unfold load_events_for_window
    have hsub : ((rows.filter
        (selectedForWindow now PLANNING_WINDOW_HOURS POST_END_GRACE_MIN)).map Event.id).Nodup :=
      List.Nodup.sublist (List.Sublist.map _ (List.filter_sublist _)) hnd
    rw [dictById_eq_of_nodup hsub, List.mem_filter]

theorem string_append_cancel {p a b : String} (h : p ++ a = p ++ b) : a = b := by
  have hd := congrArg String.data h
  rw [String.data_append, String.data_append] at hd
  exact String.ext (List.append_cancel_left hd)

theorem deep_link_head_false (e : Event) :
    (deep_link_for false e).data.head? = some 's' := by
  rw [show deep_link_for false e =
        "sportscenter://x-callback-url/showWatchStream?playID=" ++ e.id from rfl,
    String.data_append]
  rfl

theorem deep_link_head_true (e : Event) :
    (deep_link_for true e).data.head? = some 'h' := by
  rw [show deep_link_for true e =
        "http://\x7b\x7b .IPADDRESS \x7d\x7d/play/tuner/" ++ e.id from rfl,
    String.data_append]
  rfl

theorem extinf_head (e : Event) : (extinfLine e).data.head? = some '#' := by
  unfold extinfLine
  rw [String.data_append]
  rfl

theorem deep_link_ne_extinf (ah4c : Bool) (e₁ e₂ : Event) :
    deep_link_for ah4c e₁ ≠ extinfLine e₂ := by
  intro h
  have hh := congrArg (fun s => s.data.head?) h
  simp only at hh
  rw [extinf_head] at hh
  cases ah4c
  · rw [deep_link_head_false] at hh
    exact absurd (Option.some.inj hh) (by decide)
  · rw [deep_link_head_true] at hh
    exact absurd (Option.some.inj hh) (by decide)

theorem deep_link_ne_header (ah4c : Bool) (e : Event) :
    deep_link_for ah4c e ≠ "#EXTM3U" := by
  intro h
  have hh := congrArg (fun s => s.data.head?) h
  simp only at hh
  cases ah4c
  · rw [deep_link_head_false] at hh
    exact absurd (Option.some.inj hh) (by decide)
  · rw [deep_link_head_true] at hh
    exact absurd (Option.some.inj hh) (by decide)

theorem deep_link_inj {ah4c : Bool} {e₁ e₂ : Event}
    (h : deep_link_for ah4c e₁ = deep_link_for ah4c e₂) : e₁.id = e₂.id := by
  cases ah4c
  · have h' : "sportscenter://x-callback-url/showWatchStream?playID=" ++ e₁.id =
        "sportscenter://x-callback-url/showWatchStream?playID=" ++ e₂.id := h
    exact string_append_cancel h'
  · have h' : "http://\x7b\x7b .IPADDRESS \x7d\x7d/play/tuner/" ++ e₁.id =
        "http://\x7b\x7b .IPADDRESS \x7d\x7d/play/tuner/" ++ e₂.id := h
    exact string_append_cancel h'

theorem eq_of_mem_of_id_eq {events : List Event} (hids : (events.map Event.id).Nodup)
    {e₁ e₂ : Event} (h₁ : e₁ ∈ events) (h₂ : e₂ ∈ events) (hid : e₁.id = e₂.id) :
    e₁ = e₂ :=
  List.inj_on_of_nodup_map hids h₁ h₂ hid

theorem generate_m3u_eq_filter (ah4c : Bool) (now : Int) (events : List Event) :
    generate_m3u ah4c now events =
      "#EXTM3U" ::
        (events.filter (fun e => !decide (e.stop < now))).flatMap (m3uEntry ah4c) := by
  unfold generate_m3u
  congr 1
  induction events with
  | nil => simp
  | cons a rest ih =>
    by_cases h : a.stop < now <;> simp [h, ih]

theorem count_deep_link_flatMap (ah4c : Bool) (now : Int) (e : Event)
    (halive : ¬ e.stop < now) :
    ∀ events : List Event, e ∈ events → (events.map Event.id).Nodup →
      (events.flatMap (fun x => if x.stop < now then [] else m3uEntry ah4c x)).count
          (deep_link_for ah4c e) = 1 := by
  intro events
  induction events with
  | nil => intro he; exact absurd he (List.not_mem_nil e)
  | cons a rest ih =>
    intro he hnd
    rw [List.map_cons, List.nodup_cons] at hnd
    rw [List.flatMap_cons, List.count_append]
    rcases List.mem_cons.mp he with rfl | hmem
    · have h1 : (if e.stop < now then ([] : List String) else m3uEntry ah4c e).count
          (deep_link_for ah4c e) = 1 := by
        rw [if_neg halive]
        unfold m3uEntry
        rw [List.count_cons, List.count_cons, List.count_nil]
        have hne : ¬ (extinfLine e == deep_link_for ah4c e) = true := by
          simp only [beq_iff_eq]
          intro hx
          exact deep_link_ne_extinf ah4c e e hx.symm
        rw [if_neg hne, if_pos (beq_iff_eq.mpr rfl)]
      have h0 : (rest.flatMap (fun x => if x.stop < now then [] else m3uEntry ah4c x)).count
          (deep_link_for ah4c e) = 0 := by
        rw [List.count_eq_zero]
        intro hmem'
        rw [List.mem_flatMap] at hmem'
        obtain ⟨x, hx, hlx⟩ := hmem'
        by_cases hxe : x.stop < now
        · rw [if_pos hxe] at hlx; exact absurd hlx (List.not_mem_nil _)
        · rw [if_neg hxe] at hlx
          unfold m3uEntry at hlx
          rcases List.mem_cons.mp hlx with hl | hl
          · exact deep_link_ne_extinf ah4c e x hl
          · rcases List.mem_cons.mp hl with hl' | hl'
            · have hid : x.id = e.id := (deep_link_inj hl').symm
              exact hnd.1 (hid ▸ List.mem_map_of_mem Event.id hx)
            · exact absurd hl' (List.not_mem_nil _)
      omega
    · have h0 : (if a.stop < now then ([] : List String) else m3uEntry ah4c a).count
          (deep_link_for ah4c e) = 0 := by
        by_cases hae : a.stop < now
        · rw [if_pos hae, List.count_nil]
        · rw [if_neg hae]
          unfold m3uEntry
          rw [List.count_cons, List.count_cons, List.count_nil]
          have hne1 : ¬ (extinfLine a == deep_link_for ah4c e) = true := by
            simp only [beq_iff_eq]
            intro hx
            exact deep_link_ne_extinf ah4c e a hx.symm
          have hne2 : ¬ (deep_link_for ah4c a == deep_link_for ah4c e) = true := by
            simp only [beq_iff_eq]
            intro hx
            have hid : a.id = e.id := deep_link_inj hx
            exact hnd.1 (hid ▸ List.mem_map_of_mem Event.id hmem)
          rw [if_neg hne1, if_neg hne2]
      have h1 := ih hmem hnd.2
      omega

/-- C4: an already-ended event (`stop < now`) contributes nothing to the
playlist -- the emitted lines are exactly the header plus the entries of the
surviving events, and the ended event's deep-link line never appears --
while every selected event, ended or not, keeps its guide channel, its
event block, and its post-event "STREAM OFFLINE" filler; a surviving event
(`stop >= now`) gets exactly one playlist entry (its deep-link line appears
exactly once). -/
theorem c4_playlist_excludes_ended (ah4c : Bool) (now : Int) (events : List Event)
    (e : Event) (he : e ∈ events) (hids : (events.map Event.id).Nodup) :
    generate_m3u ah4c now events =
        "#EXTM3U" ::
          (events.filter (fun x => !decide (x.stop < now))).flatMap (m3uEntry ah4c) ∧
      (e.stop < now → deep_link_for ah4c e ∉ generate_m3u ah4c now events) ∧
      (¬ e.stop < now →
        (generate_m3u ah4c now events).count (deep_link_for ah4c e) = 1) ∧
      emitChannelId e ∈ guideChannelIds events ∧
      eventBlock e ∈ channelBlocks e ∧
      (∃ b ∈ postBlocks e, b.label = "STREAM OFFLINE") := by
  refine ⟨generate_m3u_eq_filter ah4c now events, ?_, ?_, ?_, ?_, ?_⟩
  · intro hend hmem
    unfold generate_m3u at hmem
    rcases List.mem_cons.mp hmem with hm | hm
    · exact deep_link_ne_header ah4c e hm
    · rw [List.mem_flatMap] at hm
      obtain ⟨x, hx, hlx⟩ := hm
      by_cases hxe : x.stop < now
      · rw [if_pos hxe] at hlx
        exact absurd hlx (List.not_mem_nil _)
      · rw [if_neg hxe] at hlx
        rcases List.mem_cons.mp hlx with hl | hl
        · exact deep_link_ne_extinf ah4c e x hl
        · rcases List.mem_cons.mp hl with hl' | hl'
          · have hxeq : x = e := eq_of_mem_of_id_eq hids hx he (deep_link_inj hl').symm
            exact hxe (hxeq ▸ hend)
          · exact absurd hl' (List.not_mem_nil _)
  · intro halive
    unfold generate_m3u
    rw [List.count_cons]
    have hnh : ¬ (("#EXTM3U" : String) == deep_link_for ah4c e) = true := by
      simp only [beq_iff_eq]
      intro hx
      exact deep_link_ne_header ah4c e hx.symm
    rw [if_neg hnh, count_deep_link_flatMap ah4c now e halive events he hids]
  · exact List.mem_map_of_mem emitChannelId he
  · unfold channelBlocks
    exact List.mem_append.mpr (Or.inr (List.mem_cons_self _ _))
  · rw [postBlocks_eq_offline_tiles]
    exact ⟨_, List.mem_map_of_mem _ (by decide : (0 : Nat) ∈ List.range 16), rfl⟩

/-- Witness for `c4_playlist_excludes_ended` at `now = 0` with the single
live regular event. -/
theorem c4_witness :
    generate_m3u false 0 [evRegular] =
        "#EXTM3U" ::
          (([evRegular]).filter (fun x => !decide (x.stop < 0))).flatMap (m3uEntry false) ∧
      (evRegular.stop < 0 → deep_link_for false evRegular ∉ generate_m3u false 0 [evRegular]) ∧
      (¬ evRegular.stop < 0 →
        (generate_m3u false 0 [evRegular]).count (deep_link_for false evRegular) = 1) ∧
      emitChannelId evRegular ∈ guideChannelIds [evRegular] ∧
      eventBlock evRegular ∈ channelBlocks evRegular ∧
      (∃ b ∈ postBlocks evRegular, b.label = "STREAM OFFLINE") :=
  c4_playlist_excludes_ended false 0 [evRegular] evRegular (by decide) (by decide)

/-- C8 counterexample: for an empty title the emitted event programme block
carries the empty title, and the playlist display name is the empty compact
code -- neither substitutes "Unknown Event" (only the channel display-name
does, via `shorten_title`). -/
theorem c8_counterexample :
    eventBlock evUntitled ∈ channelBlocks evUntitled ∧
      (eventBlock evUntitled).label = "" ∧
      ¬ (eventBlock evUntitled).label = "Unknown Event" ∧
      compact_matchup evUntitled.title = "" ∧
      (channelDisplayNames evUntitled).head? = some "Unknown Event" := by
  refine ⟨by decide, by decide, by decide, by decide, by decide⟩

/-- C8 (amended): for an empty or missing title, only the guide channel's
first display-name substitutes the "Unknown Event" placeholder; the event
programme block's title stays the raw empty string and the playlist display
name (the compact code) is empty.  No path fails. -/
theorem c8_placeholder_scope (e : Event) (h : e.title = "") :
    channelDisplayNames e = ["Unknown Event", PROVIDER_LABEL] ∧
      (eventBlock e).label = "" ∧
      compact_matchup e.title = "" := by
  unfold channelDisplayNames eventBlock
  rw [h]
  exact ⟨by rw [show shorten_title "" = "Unknown Event" from by decide], rfl, by decide⟩

/-- Witness for `c8_placeholder_scope` at the concrete untitled event. -/
theorem c8_witness :
    channelDisplayNames evUntitled = ["Unknown Event", PROVIDER_LABEL] ∧
      (eventBlock evUntitled).label = "" ∧
      compact_matchup evUntitled.title = "" :=
  c8_placeholder_scope evUntitled (by decide)

theorem compact_matchupL_length (l : List Char) : (compact_matchupL l).length ≤ 8 := by
  unfold compact_matchupL genericMatchup
  dsimp only
  split
  · simp [List.length_take]
  · split
    · split
      · simp [List.length_take]
      · split
        · simp [List.length_take]
        · simp [List.length_take]
    · split
      · simp [List.length_take]
      · simp [List.length_take]

/-- C9: `compact_matchup` yields at most 8 characters on every input --
all four prioritized branches (mat number, language tag, generic matchup,
alphanumeric crush) end in a truncation to 8. -/
theorem c9_compact_matchup_le_8 (title : String) : (compact_matchup title).length ≤ 8 :=
  compact_matchupL_length title.data

theorem takeWhile_eq_nil_of_none {p : Char → Bool} :
    ∀ {m : List Char}, (∀ c ∈ m, p c = false) → m.takeWhile p = []
  | [], _ => rfl
  | c :: cs, h => by
    rw [List.takeWhile_cons, h c (List.mem_cons_self _ _)]
    rfl

theorem sub1Aux_no_digits :
    ∀ (fuel : Nat) (l : List Char), (∀ c ∈ l, c.isDigit = false) → sub1Aux fuel l = l := by
  intro fuel
  induction fuel with
  | zero => intro l _; rfl
  | succ n ih =>
    intro l h
    cases l with
    | nil => rfl
    | cons c rest =>
      rw [sub1Aux]
      by_cases hc : c = '#'
      · subst hc
        rw [if_pos rfl]
        have hemp : ((rest.dropWhile pyIsSpace).takeWhile (fun x => x.isDigit)).isEmpty = true := by
          rw [takeWhile_eq_nil_of_none]
          · rfl
          · intro x hx
            exact h x (List.mem_cons_of_mem _ ((List.dropWhile_sublist _).subset hx))
        rw [if_pos hemp, ih rest (fun x hx => h x (List.mem_cons_of_mem _ hx))]
      · rw [if_neg hc, ih rest (fun x hx => h x (List.mem_cons_of_mem _ hx))]

theorem mem_sub2Aux :
    ∀ (fuel : Nat) (l : List Char) (c : Char), c ∈ sub2Aux fuel l → c ∈ l ∨ c = ' ' := by
  intro fuel
  induction fuel with
  | zero => intro l c hc; exact Or.inl hc
  | succ n ih =>
    intro l c hc
    cases l with
    | nil => exact absurd hc (List.not_mem_nil c)
    | cons a rest =>
      rw [sub2Aux] at hc
      by_cases ha : a = '('
      · rw [if_pos ha] at hc
        by_cases hany : rest.any (fun x => x == ')') = true
        · rw [if_pos hany] at hc
          rcases List.mem_cons.mp hc with hm | hm
          · exact Or.inr hm
          · rcases ih _ c hm with hm' | hm'
            · exact Or.inl (List.mem_cons_of_mem _
                (((List.tail_sublist _).trans (List.dropWhile_sublist _)).subset hm'))
            · exact Or.inr hm'
        · rw [if_neg hany] at hc
          rcases List.mem_cons.mp hc with hm | hm
          · exact Or.inl (hm ▸ ha ▸ List.mem_cons_self _ _)
          · rcases ih _ c hm with hm' | hm'
            · exact Or.inl (List.mem_cons_of_mem _ hm')
            · exact Or.inr hm'
      · rw [if_neg ha] at hc
        rcases List.mem_cons.mp hc with hm | hm
        · exact Or.inl (hm ▸ List.mem_cons_self _ _)
        · rcases ih _ c hm with hm' | hm'
          · exact Or.inl (List.mem_cons_of_mem _ hm')
          · exact Or.inr hm'

theorem pyWordsAux_all_space :
    ∀ (l : List Char), (∀ c ∈ l, pyIsSpace c = true) → pyWordsAux [] l = [] := by
  intro l
  induction l with
  | nil => intro _; rfl
  | cons c cs ih =>
    intro h
    rw [pyWordsAux, h c (List.mem_cons_self _ _)]
    exact ih (fun x hx => h x (List.mem_cons_of_mem _ hx))

theorem digit_is_alnum {c : Char} (h : c.isDigit = true) : pyIsAlnumA c = true := by
  simp only [Char.isDigit, Bool.and_eq_true, decide_eq_true_eq] at h
  simp only [pyIsAlnumA, Bool.or_eq_true, Bool.and_eq_true, decide_eq_true_eq]
  exact Or.inr ⟨h.1, h.2⟩

theorem team_code_no_alnum (name : String) (h : ∀ c ∈ name.data, pyIsAlnumA c = false) :
    team_code name = "???" := by
  have hnd : ∀ c ∈ name.data, c.isDigit = false := by
    intro c hc
    cases hdg : c.isDigit
    · rfl
    · exact absurd (digit_is_alnum hdg) (by simp [h c hc])
  have h1 : sub1 name.data = name.data := sub1Aux_no_digits _ _ hnd
  have h2 : ∀ c ∈ sub2 (sub1 name.data), pyIsAlnumA c = false := by
    rw [h1]
    intro c hc
    rcases mem_sub2Aux _ _ _ hc with hm | hm
    · exact h c hm
    · subst hm; decide
  have h3 : ∀ c ∈ sub3 (sub2 (sub1 name.data)), pyIsSpace c = true := by
    intro c hc
    unfold sub3 at hc
    rw [List.mem_map] at hc
    obtain ⟨x, hx, hxc⟩ := hc
    by_cases hax : (pyIsAlnumA x || pyIsSpace x) = true
    · rw [if_pos hax] at hxc
      subst hxc
      rcases Bool.or_eq_true_iff.mp hax with h' | h'
      · exact absurd h' (by simp [h2 x hx])
      · exact h'
    · rw [if_neg hax] at hxc
      subst hxc
      decide
  have h4 : pyWords (sub3 (sub2 (sub1 name.data))) = [] := pyWordsAux_all_space _ h3
  unfold team_code team_codeL
  dsimp only
  rw [show pyWords (sub3 (sub2 (sub1 name.data))) = [] from h4]
  decide

/-- C10: edge behaviour of compact naming at the playlist interface: the
compact code of an empty title is the empty string (so a playlist entry's
`tvg-name` and display name can be empty, as the untitled event's emitted
`#EXTINF` line shows), and `team_code` of a side name with no alphanumeric
character is the literal `"???"` -- the code is neither guaranteed
alphanumeric nor non-empty. -/
theorem c10_compact_naming_edges :
    compact_matchup "" = "" ∧
      (∀ name : String, (∀ c ∈ name.data, pyIsAlnumA c = false) → team_code name = "???") ∧
      team_code "!!!" = "???" ∧
      extinfLine evUntitled =
        "#EXTINF:-1 tvg-id=\"dl-anon\" tvg-name=\"\" tvg-logo=\"\" group-title=\"ESPN+\"," := by
  refine ⟨by decide, team_code_no_alnum, by decide, by decide⟩

/-- C6 counterexample: the claim says every non-Z format raises a parse
error, but an explicit `+00:00` offset and a zone-less timestamp are both
accepted -- `parse_iso_z` only rewrites a trailing `Z` and otherwise passes
the string through to `fromisoformat` unchanged. -/
theorem c6_counterexample :
    (parse_iso_z "2024-01-01T12:00:00+00:00").isSome = true ∧
      (parse_iso_z "2024-01-01T12:00:00").isSome = true := by
  refine ⟨by decide, by decide⟩

/-- C6 (amended): `parse_iso_z` accepts a trailing-Z ISO-8601 timestamp and
normalizes it to UTC (offset zero), but it does *not* reject every other
format: any string the underlying `fromisoformat` grammar accepts -- e.g.
an explicit numeric offset, or no zone designator at all -- is accepted
unchanged, and a parse error occurs only for strings `fromisoformat`
rejects. -/
theorem c6_parse_iso_z_behaviour :
    parse_iso_z "2024-01-01T12:00:00Z" = some ⟨2024, 1, 1, 12, 0, 0, some 0⟩ ∧
      parse_iso_z "2024-01-01T12:00:00+05:30" = some ⟨2024, 1, 1, 12, 0, 0, some 330⟩ ∧
      parse_iso_z "2024-01-01T12:00:00" = some ⟨2024, 1, 1, 12, 0, 0, none⟩ ∧
      parse_iso_z "not-a-timestamp" = none ∧
      parse_iso_z "2024-13-01T12:00:00Z" = none ∧
      (∀ s : String, ¬ s.data.getLast? = some 'Z' → parse_iso_z s = pyFromIso s) := by
  refine ⟨by decide, by decide, by decide, by decide, by decide, ?_⟩
  intro s h
  unfold parse_iso_z
  rw [if_neg h]

theorem space_of_eq_space {c : Char} (h : c = ' ') : pyIsSpace c = true := by
  subst h; decide

theorem ne_space_of_not_space {c : Char} (h : pyIsSpace c = false) : c ≠ ' ' :=
  fun he => by rw [space_of_eq_space he] at h; exact Bool.true_eq_false ▸ h.symm ▸ rfl

theorem mem_subSpaces : ∀ (l : List Char) (c : Char), c ∈ subSpaces l → c ∈ l ∨ c = ' ' := by
  intro l
  induction l with
  | nil => intro c hc; exact absurd hc (List.not_mem_nil c)
  | cons a tl ih =>
    intro c hc
    cases tl with
    | nil =>
      rw [subSpaces] at hc
      split at hc
      · exact Or.inr (List.mem_singleton.mp hc)
      · exact Or.inl hc
    | cons b rest =>
      rw [subSpaces] at hc
      split at hc
      · rcases ih c hc with hm | hm
        · exact Or.inl (List.mem_cons_of_mem _ hm)
        · exact Or.inr hm
      · rcases List.mem_cons.mp hc with hm | hm
        · subst hm
          split
          · exact Or.inr rfl
          · exact Or.inl (List.mem_cons_self _ _)
        · rcases ih c hm with hm' | hm'
          · exact Or.inl (List.mem_cons_of_mem _ hm')
          · exact Or.inr hm'

theorem subSpaces_space_eq :
    ∀ (l : List Char) (c : Char), c ∈ subSpaces l → pyIsSpace c = true → c = ' ' := by
  intro l
  induction l with
  | nil => intro c hc; exact absurd hc (List.not_mem_nil c)
  | cons a tl ih =>
    intro c hc hsp
    cases tl with
    | nil =>
      rw [subSpaces] at hc
      split at hc
      · exact List.mem_singleton.mp hc
      · rename_i hna
        rw [List.mem_singleton.mp hc] at hsp ⊢
        rw [hsp] at hna
        exact absurd rfl hna
    | cons b rest =>
      rw [subSpaces] at hc
      split at hc
      · exact ih c hc hsp
      · rcases List.mem_cons.mp hc with hm | hm
        · subst hm
          by_cases ha : pyIsSpace a = true
          · rw [if_pos ha]
          · rw [if_neg ha]
            rw [if_neg ha] at hsp
            exact absurd hsp ha
        · exact ih c hm hsp

theorem subSpaces_head_of_not_space {b : Char} (rest : List Char)
    (hb : pyIsSpace b = false) : (subSpaces (b :: rest)).head? = some b := by
  cases rest with
  | nil =>
    rw [subSpaces, if_neg (by simp [hb])]
    rfl
  | cons c rest' =>
    rw [subSpaces, if_neg (by simp [hb]), if_neg (by simp [hb])]
    rfl

theorem subSpaces_chain :
    ∀ l : List Char, (subSpaces l).Chain' (fun a b => a = ' ' → b ≠ ' ') := by
  intro l
  induction l with
  | nil => exact List.chain'_nil
  | cons a tl ih =>
    cases tl with
    | nil =>
      rw [subSpaces]
      split
      · exact List.chain'_singleton _
      · exact List.chain'_singleton _
    | cons b rest =>
      rw [subSpaces]
      split
      · exact ih
      · rename_i hcond
        rw [List.chain'_cons']
        refine ⟨?_, ih⟩
        intro y hy
        split
        · rename_i ha
          intro _
          have hb : pyIsSpace b = false := by
            cases hpb : pyIsSpace b
            · rfl
            · rw [ha, hpb] at hcond; exact absurd rfl hcond
          rw [subSpaces_head_of_not_space rest hb] at hy
          cases hy
          exact ne_space_of_not_space hb
        · rename_i ha
          intro hae
          exact absurd (space_of_eq_space hae) (by simp [ha])

theorem head_dropWhile_not {p : Char → Bool} :
    ∀ (l : List Char) (c : Char), (l.dropWhile p).head? = some c → p c = false := by
  intro l
  induction l with
  | nil => intro c hc; simp at hc
  | cons a tl ih =>
    intro c hc
    rw [List.dropWhile_cons] at hc
    split at hc
    · exact ih c hc
    · cases hc
      rename_i hpa
      exact Bool.not_eq_true _ ▸ hpa

theorem dropWhile_eq_self_of_head {p : Char → Bool} {l : List Char}
    (h : ∀ c, l.head? = some c → p c = false) : l.dropWhile p = l := by
  cases l with
  | nil => rfl
  | cons a tl =>
    rw [List.dropWhile_cons, if_neg]
    rw [h a rfl]
    exact Bool.false_ne_true

theorem rstrip_isPrefixOf (l : List Char) : rstrip l <+: l := by
  unfold rstrip
  have h1 : l.reverse.dropWhile pyIsSpace <:+ l.reverse := List.dropWhile_suffix _
  have h2 := List.IsSuffix.reverse h1
  rwa [List.reverse_reverse] at h2

theorem prefix_head? {l₁ l₂ : List Char} (h : l₁ <+: l₂) (hne : l₁ ≠ []) :
    l₂.head? = l₁.head? := by
  obtain ⟨t, rfl⟩ := h
  rw [List.head?_append]
  cases l₁ with
  | nil => exact absurd rfl hne
  | cons a tl => rfl

theorem suffix_getLast? {l₁ l₂ : List Char} (h : l₁ <:+ l₂) (hne : l₁ ≠ []) :
    l₂.getLast? = l₁.getLast? := by
  obtain ⟨t, rfl⟩ := h
  rw [List.getLast?_append]
  cases hl : l₁.getLast? with
  | none => exact absurd (List.getLast?_eq_none_iff.mp hl) hne
  | some c => rfl

theorem rstrip_getLast {l : List Char} {c : Char} (h : (rstrip l).getLast? = some c) :
    pyIsSpace c = false := by
  unfold rstrip at h
  rw [List.getLast?_reverse] at h
  exact head_dropWhile_not _ _ h

theorem rstrip_ne_nil {l : List Char} {c : Char} (hh : l.head? = some c)
    (hc : pyIsSpace c = false) : rstrip l ≠ [] := by
  intro hnil
  unfold rstrip at hnil
  have h0 : l.reverse.dropWhile pyIsSpace = [] := by
    have := congrArg List.reverse hnil
    rwa [List.reverse_reverse] at this
  have hall := List.dropWhile_eq_nil_iff.mp h0
  have hcl : c ∈ l := by
    cases l with
    | nil => simp at hh
    | cons a tl => cases hh; exact List.mem_cons_self _ _
  have := hall c (List.mem_reverse.mpr hcl)
  rw [hc] at this
  exact Bool.false_ne_true this

theorem rstrip_head {l : List Char} (hne : rstrip l ≠ []) :
    l.head? = (rstrip l).head? :=
  prefix_head? (rstrip_isPrefixOf l) hne

/-- Model of `collapseStrip` always lands in the normal form. -/
theorem tidy_collapseStrip (l : List Char) : TidyChars (collapseStrip l) := by
  unfold collapseStrip pyStrip lstrip
  have hS1 : ∀ c ∈ subSpaces l, pyIsSpace c = true → c = ' ' := subSpaces_space_eq l
  have hch : (subSpaces l).Chain' (fun a b => a = ' ' → b ≠ ' ') := subSpaces_chain l
  have hsfx : (subSpaces l).dropWhile pyIsSpace <:+ subSpaces l := List.dropWhile_suffix _
  have hpre := rstrip_isPrefixOf ((subSpaces l).dropWhile pyIsSpace)
  refine ⟨?_, ?_, ?_, ?_⟩
  · intro c hc
    exact hS1 c (hsfx.subset (hpre.subset hc))
  · exact List.Chain'.prefix (List.Chain'.suffix hch hsfx) hpre
  · intro c hc
    have hne : rstrip ((subSpaces l).dropWhile pyIsSpace) ≠ [] := by
      intro h0
      rw [h0] at hc
      simp at hc
    rw [← rstrip_head hne] at hc
    exact ne_space_of_not_space (head_dropWhile_not _ _ hc)
  · intro c hc
    exact ne_space_of_not_space (rstrip_getLast hc)

/-- On the normal form, `collapseStrip` is the identity. -/
theorem collapseStrip_of_tidy {l : List Char} (h : TidyChars l) : collapseStrip l = l := by
  obtain ⟨h1, h2, h3, h4⟩ := h
  have hsub : subSpaces l = l := by
    clear h3 h4
    induction l with
    | nil => rfl
    | cons a tl ih =>
      cases tl with
      | nil =>
        rw [subSpaces]
        split
        · rename_i ha
          rw [h1 a (List.mem_cons_self _ _) ha]
        · rfl
      | cons b rest =>
        have hnc : ¬ (pyIsSpace a && pyIsSpace b) = true := by
          rw [Bool.and_eq_true]
          rintro ⟨hsa, hsb⟩
          exact (List.chain'_cons.mp h2).1 (h1 a (List.mem_cons_self _ _) hsa)
            (h1 b (List.mem_cons_of_mem _ (List.mem_cons_self _ _)) hsb)
        rw [subSpaces, if_neg hnc,
          ih (fun c hc hsp => h1 c (List.mem_cons_of_mem _ hc) hsp)
            (List.chain'_cons.mp h2).2]
        by_cases ha : pyIsSpace a = true
        · rw [if_pos ha, h1 a (List.mem_cons_self _ _) ha]
        · rw [if_neg ha]
  have hhead : ∀ c, l.head? = some c → pyIsSpace c = false := by
    intro c hc
    cases hcs : pyIsSpace c
    · rfl
    · exact absurd (h1 c (by
        cases l with
        | nil => simp at hc
        | cons x tl => cases hc; exact List.mem_cons_self _ _) hcs) (h3 c hc)
  have hlast : ∀ c, l.getLast? = some c → pyIsSpace c = false := by
    intro c hc
    cases hcs : pyIsSpace c
    · rfl
    · refine absurd (h1 c ?_ hcs) (h4 c hc)
      have : c ∈ l.reverse := by
        rw [← List.head?_reverse] at hc
        cases hrev : l.reverse with
        | nil => rw [hrev] at hc; simp at hc
        | cons x tl =>
          rw [hrev] at hc
          cases hc
          exact List.mem_cons_self _ _
      exact List.mem_reverse.mp this
  unfold collapseStrip pyStrip lstrip
  rw [hsub, dropWhile_eq_self_of_head hhead]
  unfold rstrip
  rw [dropWhile_eq_self_of_head (fun c hc => hlast c (List.head?_reverse l ▸ hc)),
    List.reverse_reverse]

theorem mem_collapseStrip {l : List Char} {c : Char} (hc : c ∈ collapseStrip l) :
    c ∈ l ∨ c = ' ' := by
  unfold collapseStrip pyStrip lstrip at hc
  have h1 := (rstrip_isPrefixOf _).subset hc
  have h2 := (List.dropWhile_suffix _).subset h1
  exact mem_subSpaces l c h2

/-- On a nonempty, emoji-free input already in normal form and within the
length bound, `shorten_title` is the identity. -/
theorem shortenTitleWith_fix {t : String} (hne : t.data ≠ [])
    (hemoji : ∀ c ∈ t.data, emojiChar c = false) (htidy : TidyChars t.data)
    (hlen : t.data.length ≤ 38) : shortenTitleWith 38 t = t := by
  unfold shortenTitleWith
  rw [if_neg (by simpa using hne)]
  dsimp only
  rw [List.filter_eq_self.mpr (fun c hc => by rw [hemoji c hc]; rfl),
    collapseStrip_of_tidy htidy, if_pos hlen]

theorem rsplit_isPrefixOf (m : List Char) : rsplitLastSpace m <+: m := by
  unfold rsplitLastSpace
  cases h : m.reverse.dropWhile (fun c => !(c == ' ')) with
  | nil => exact List.prefix_refl m
  | cons y restRev =>
    have hsfx : y :: restRev <:+ m.reverse := h ▸ List.dropWhile_suffix _
    have h2 : restRev <:+ m.reverse :=
      List.IsSuffix.trans (⟨[y], rfl⟩ : restRev <:+ y :: restRev) hsfx
    have h3 := List.IsSuffix.reverse h2
    rwa [List.reverse_reverse] at h3

theorem rsplit_ne_nil {m : List Char} {c : Char} (hh : m.head? = some c) (hc : c ≠ ' ') :
    rsplitLastSpace m ≠ [] := by
  intro h0
  unfold rsplitLastSpace at h0
  cases h : m.reverse.dropWhile (fun x => !(x == ' ')) with
  | nil =>
    rw [h] at h0
    have hm : m = [] := h0
    rw [hm] at hh
    simp at hh
  | cons y restRev =>
    rw [h] at h0
    have hrr0 : restRev.reverse = [] := h0
    have hrr : restRev = [] := by simpa using congrArg List.reverse hrr0
    have hy : (fun x => !(x == ' ')) y = false :=
      head_dropWhile_not (p := fun x => !(x == ' ')) m.reverse y (by rw [h]; rfl)
    have hy' : y = ' ' := by simpa using hy
    have hsplit := List.takeWhile_append_dropWhile (fun x => !(x == ' ')) m.reverse
    rw [h, hrr] at hsplit
    have hm := congrArg List.reverse hsplit
    rw [List.reverse_reverse, List.reverse_append] at hm
    rw [← hm] at hh
    cases hh
    exact hc hy'

theorem findSuffixIdx_spec :
    ∀ (l : List Char) (i : Nat), findSuffixIdx l = some i →
      suffixMatchHere (l.drop i) = true := by
  intro l
  induction l with
  | nil => intro i h; simp [findSuffixIdx] at h
  | cons c cs ih =>
    intro i h
    rw [findSuffixIdx] at h
    split at h
    · cases h
      rename_i hm
      exact hm
    · rw [Option.map_eq_some'] at h
      obtain ⟨j, hj, rfl⟩ := h
      exact ih j hj

theorem suffixMatch_head {m : List Char} (h : suffixMatchHere m = true) :
    m.head? = some ' ' := by
  cases m with
  | nil => simp [suffixMatchHere] at h
  | cons c0 rest =>
    rw [suffixMatchHere, Bool.and_eq_true, beq_iff_eq] at h
    rw [h.1]
    rfl

theorem tidy_rstrip_prefix {t0 m : List Char} (ht : TidyChars t0) (hm : m <+: t0)
    (hmne : m ≠ []) (hne : rstrip m ≠ []) :
    TidyChars (rstrip m) ∧ (rstrip m).head? = m.head? := by
  have hpre : rstrip m <+: t0 := (rstrip_isPrefixOf m).trans hm
  have hh := rstrip_head hne
  refine ⟨⟨?_, ?_, ?_, ?_⟩, hh.symm⟩
  · intro c hc hsp
    exact ht.1 c (hpre.subset hc) hsp
  · exact List.Chain'.prefix ht.2.1 hpre
  · intro c hc
    rw [← hh] at hc
    rw [← prefix_head? hm hmne] at hc
    exact ht.2.2.1 c hc
  · intro c hc
    exact ne_space_of_not_space (rstrip_getLast hc)

theorem tidy_append {A B : List Char} (hA : TidyChars A)
    (hB1 : ∀ c ∈ B, pyIsSpace c = true → c = ' ')
    (hB2 : B.Chain' (fun a b => a = ' ' → b ≠ ' ')) (hAne : A ≠ [])
    (hBlast : ∀ c, B.getLast? = some c → c ≠ ' ') :
    TidyChars (A ++ B) := by
  refine ⟨?_, ?_, ?_, ?_⟩
  · intro c hc hsp
    rcases List.mem_append.mp hc with hm | hm
    · exact hA.1 c hm hsp
    · exact hB1 c hm hsp
  · refine List.Chain'.append hA.2.1 hB2 ?_
    intro x hx y _ hxs
    exact absurd hxs (hA.2.2.2 x hx)
  · intro c hc
    rw [List.head?_append] at hc
    cases hh : A.head? with
    | none => exact absurd (List.head?_eq_none_iff.mp hh) hAne
    | some a =>
      rw [hh] at hc
      have hac : a = c := by simpa using hc
      exact hac ▸ hA.2.2.1 a hh
  · intro c hc
    rw [List.getLast?_append] at hc
    cases hB : B.getLast? with
    | none =>
      rw [hB] at hc
      exact hA.2.2.2 c (by simpa using hc)
    | some b =>
      rw [hB] at hc
      have hbc : b = c := by simpa using hc
      exact hbc ▸ hBlast b hB

theorem append_dots_tidy {A : List Char} (hA : TidyChars A) (hAne : A ≠ []) :
    TidyChars (A ++ ['.', '.', '.']) := by
  refine tidy_append hA ?_ ?_ hAne ?_
  · intro c hc hsp
    have h2 : c = '.' := by simpa using hc
    rw [h2] at hsp
    exact absurd hsp (by decide)
  · refine List.chain'_cons.mpr ⟨?_, List.chain'_cons.mpr ⟨?_, List.chain'_singleton _⟩⟩
    · intro h; exact absurd h (by decide)
    · intro h; exact absurd h (by decide)
  · intro c hc
    have h2 : '.' = c := by simpa using hc
    rw [← h2]
    decide

theorem head?_some_ne_nil {l : List Char} {c : Char} (h : l.head? = some c) : l ≠ [] := by
  intro h0
  rw [h0] at h
  simp at h

/-- C7 (amended): `shorten_title` is idempotent on every input whose first
application yields a nonempty result within the length bound; applying it
again to such a result leaves it unchanged. -/
theorem c7_shorten_title_conditional_idempotent (s : String)
    (hne : shorten_title s ≠ "") (hlen : (shorten_title s).length ≤ 38) :
    shorten_title (shorten_title s) = shorten_title s := by
  by_cases hs : s.data = []
  · rw [String.ext hs]
    decide
  · set t0 : List Char := collapseStrip (s.data.filter (fun c => !emojiChar c)) with ht0def
    have htidy : TidyChars t0 := tidy_collapseStrip _
    have hemo : ∀ c ∈ t0, emojiChar c = false := by
      intro c hc
      rcases mem_collapseStrip hc with hm | hm
      · have := (List.mem_filter.mp hm).2
        simpa using this
      · rw [hm]; decide
    by_cases hl : t0.length ≤ 38
    · have hval : shorten_title s = String.mk t0 := by
        unfold shorten_title shortenTitleWith
        rw [if_neg (by simpa using hs)]
        dsimp only
        rw [← ht0def, if_pos hl]
      rw [hval]
      have hne' : t0 ≠ [] := by
        intro h0
        rw [hval, h0] at hne
        exact hne rfl
      exact shortenTitleWith_fix hne' hemo htidy hl
    · have ht0ne : t0 ≠ [] := by
        intro h0
        rw [h0] at hl
        simp at hl
      obtain ⟨c0, hc0⟩ : ∃ c, t0.head? = some c := by
        cases hT : t0 with
        | nil => exact absurd hT ht0ne
        | cons x tl => exact ⟨x, rfl⟩
      have hc0ne : c0 ≠ ' ' := htidy.2.2.1 c0 hc0
      have hc0mem : c0 ∈ t0 := by
        cases hT : t0 with
        | nil => exact absurd hT ht0ne
        | cons x tl =>
          rw [hT] at hc0
          cases hc0
          exact List.mem_cons_self _ _
      have hc0sp : pyIsSpace c0 = false := by
        cases hsp : pyIsSpace c0
        · rfl
        · exact absurd (htidy.1 c0 hc0mem hsp) hc0ne
      cases hidx : findSuffixIdx t0 with
      | none =>
        have htkne : t0.take (38 + 1) ≠ [] := by
          apply List.ne_nil_of_length_pos
          rw [List.length_take]
          omega
        have htkh : (t0.take (38 + 1)).head? = some c0 := by
          rw [← prefix_head? ( List.take_prefix _ _) htkne]
          exact hc0
        have hcutne : rsplitLastSpace (t0.take (38 + 1)) ≠ [] :=
          rsplit_ne_nil htkh hc0ne
        have hcuth : (rsplitLastSpace (t0.take (38 + 1))).head? = some c0 := by
          rw [← prefix_head? (rsplit_isPrefixOf _) hcutne]
          exact htkh
        have hAne : rstrip (rsplitLastSpace (t0.take (38 + 1))) ≠ [] :=
          rstrip_ne_nil hcuth hc0sp
        have hval : shorten_title s =
            String.mk (rstrip (rsplitLastSpace (t0.take (38 + 1))) ++ ['.', '.', '.']) := by
          unfold shorten_title shortenTitleWith
          rw [if_neg (by simpa using hs)]
          dsimp only
          rw [← ht0def, if_neg hl, hidx]
          dsimp only
          rw [if_neg (by
            rw [List.isEmpty_iff]
            exact hcutne)]
        have hcutpre : rsplitLastSpace (t0.take (38 + 1)) <+: t0 :=
          (rsplit_isPrefixOf _).trans ( List.take_prefix _ _)
        have hTA := tidy_rstrip_prefix htidy hcutpre hcutne hAne
        have htidyO := append_dots_tidy hTA.1 hAne
        have hOne : rstrip (rsplitLastSpace (t0.take (38 + 1))) ++ ['.', '.', '.'] ≠ [] := by
          intro h0
          exact hAne (List.append_eq_nil.mp h0).1
        have hemoO : ∀ c ∈ rstrip (rsplitLastSpace (t0.take (38 + 1))) ++ ['.', '.', '.'],
            emojiChar c = false := by
          intro c hc
          rcases List.mem_append.mp hc with hm | hm
          · exact hemo c (((rstrip_isPrefixOf _).trans hcutpre).subset hm)
          · have h2 : c = '.' := by simpa using hm
            rw [h2]; decide
        rw [hval]
        rw [hval] at hlen
        exact shortenTitleWith_fix hOne hemoO htidyO hlen
      | some i =>
        have hsfxh : (t0.drop i).head? = some ' ' :=
          suffixMatch_head (findSuffixIdx_spec t0 i hidx)
        have hsfxne : t0.drop i ≠ [] := head?_some_ne_nil hsfxh
        have hipos : i ≠ 0 := by
          intro h0
          rw [h0] at hsfxh
          rw [List.drop_zero] at hsfxh
          rw [hc0] at hsfxh
          cases hsfxh
          exact hc0ne rfl
        have hilt : i < t0.length := by
          by_contra hge
          push_neg at hge
          exact hsfxne (List.drop_eq_nil_of_le hge)
        have hmainne : t0.take i ≠ [] := by
          apply List.ne_nil_of_length_pos
          rw [List.length_take]
          omega
        have hmainh : (t0.take i).head? = some c0 := by
          rw [← prefix_head? ( List.take_prefix _ _) hmainne]
          exact hc0
        by_cases hmm2 : ((t0.take i).length : Int) > (38 : Int) - ((t0.drop i).length : Int)
        · -- long main part: the shortened main part is re-assembled with the suffix
          have hval0 : shorten_title s =
              String.mk (rstrip (if (rsplitLastSpace (pyTake (t0.take i)
                    ((38 : Int) - ((t0.drop i).length : Int) + 1))).isEmpty then
                  pyTake (t0.take i) ((38 : Int) - ((t0.drop i).length : Int))
                else rsplitLastSpace (pyTake (t0.take i)
                    ((38 : Int) - ((t0.drop i).length : Int) + 1))) ++ t0.drop i) := by
            unfold shorten_title shortenTitleWith
            rw [if_neg (by simpa using hs)]
            dsimp only
            rw [← ht0def, if_neg hl, hidx]
            dsimp only
            simp only [Nat.cast_ofNat]
            rw [if_pos hmm2]
          have hsfxlen : (t0.drop i).length ≤ 38 := by
            by_contra hgt
            push_neg at hgt
            rw [hval0] at hlen
            have hlen' : (rstrip (if (rsplitLastSpace (pyTake (t0.take i)
                  ((38 : Int) - ((t0.drop i).length : Int) + 1))).isEmpty then
                pyTake (t0.take i) ((38 : Int) - ((t0.drop i).length : Int))
              else rsplitLastSpace (pyTake (t0.take i)
                  ((38 : Int) - ((t0.drop i).length : Int) + 1))) ++ t0.drop i).length ≤ 38 :=
              hlen
            rw [List.length_append] at hlen'
            omega
          have hmmpos : (0 : Int) ≤ (38 : Int) - ((t0.drop i).length : Int) := by
            omega
          have hpt : pyTake (t0.take i) ((38 : Int) - ((t0.drop i).length : Int) + 1) =
              (t0.take i).take ((38 : Int) - ((t0.drop i).length : Int) + 1).toNat := by
            unfold pyTake
            rw [if_pos (by omega)]
          have hptne : pyTake (t0.take i) ((38 : Int) - ((t0.drop i).length : Int) + 1) ≠ [] := by
            rw [hpt]
            apply List.ne_nil_of_length_pos
            rw [List.length_take, List.length_take]
            have h1 : (((38 : Int) - ((t0.drop i).length : Int) + 1)).toNat ≥ 1 := by omega
            omega
          have hpth : (pyTake (t0.take i)
              ((38 : Int) - ((t0.drop i).length : Int) + 1)).head? = some c0 := by
            rw [hpt, ← prefix_head? ( List.take_prefix _ _) (hpt ▸ hptne)]
            exact hmainh
          have hcutne2 : rsplitLastSpace (pyTake (t0.take i)
              ((38 : Int) - ((t0.drop i).length : Int) + 1)) ≠ [] :=
            rsplit_ne_nil hpth hc0ne
          have hval : shorten_title s =
              String.mk (rstrip (rsplitLastSpace (pyTake (t0.take i)
                ((38 : Int) - ((t0.drop i).length : Int) + 1))) ++ t0.drop i) := by
            rw [hval0, if_neg (by rw [List.isEmpty_iff]; exact hcutne2)]
          have hcuth2 : (rsplitLastSpace (pyTake (t0.take i)
              ((38 : Int) - ((t0.drop i).length : Int) + 1))).head? = some c0 := by
            rw [← prefix_head? (rsplit_isPrefixOf _) hcutne2]
            exact hpth
          have hAne2 : rstrip (rsplitLastSpace (pyTake (t0.take i)
              ((38 : Int) - ((t0.drop i).length : Int) + 1))) ≠ [] :=
            rstrip_ne_nil hcuth2 hc0sp
          have hcutpre2 : rsplitLastSpace (pyTake (t0.take i)
              ((38 : Int) - ((t0.drop i).length : Int) + 1)) <+: t0 := by
            refine (rsplit_isPrefixOf _).trans ?_
            rw [hpt]
            exact ( List.take_prefix _ _).trans ( List.take_prefix _ _)
          have hTA2 := tidy_rstrip_prefix htidy hcutpre2 hcutne2 hAne2
          have hsfxsfx : t0.drop i <:+ t0 := List.drop_suffix _ _
          have htidyO2 : TidyChars (rstrip (rsplitLastSpace (pyTake (t0.take i)
              ((38 : Int) - ((t0.drop i).length : Int) + 1))) ++ t0.drop i) := by
            refine tidy_append hTA2.1 ?_ ?_ hAne2 ?_
            · intro c hc hsp
              exact htidy.1 c (hsfxsfx.subset hc) hsp
            · exact List.Chain'.suffix htidy.2.1 hsfxsfx
            · intro c hc
              rw [← suffix_getLast? hsfxsfx hsfxne] at hc
              exact htidy.2.2.2 c hc
          have hOne2 : rstrip (rsplitLastSpace (pyTake (t0.take i)
              ((38 : Int) - ((t0.drop i).length : Int) + 1))) ++ t0.drop i ≠ [] := by
            intro h0
            exact hAne2 (List.append_eq_nil.mp h0).1
          have hemoO2 : ∀ c ∈ rstrip (rsplitLastSpace (pyTake (t0.take i)
              ((38 : Int) - ((t0.drop i).length : Int) + 1))) ++ t0.drop i,
              emojiChar c = false := by
            intro c hc
            rcases List.mem_append.mp hc with hm | hm
            · exact hemo c (((rstrip_isPrefixOf _).trans hcutpre2).subset hm)
            · exact hemo c (hsfxsfx.subset hm)
          rw [hval]
          rw [hval] at hlen
          exact shortenTitleWith_fix hOne2 hemoO2 htidyO2 hlen
        · -- short main part: the output is the whole collapsed title, too long
          exfalso
          have hval : shorten_title s = String.mk (t0.take i ++ t0.drop i) := by
            unfold shorten_title shortenTitleWith
            rw [if_neg (by simpa using hs)]
            dsimp only
            rw [← ht0def, if_neg hl, hidx]
            dsimp only
            simp only [Nat.cast_ofNat]
            rw [if_neg hmm2]
          rw [List.take_append_drop] at hval
          rw [hval] at hlen
          exact hl hlen

/-- C7 counterexample: `shorten_title` is not idempotent.  A blank title
collapses to the empty string, which a second application turns into
"Unknown Event"; and a long title gains an ellipsis that pushes it past the
limit, so a second application truncates again and appends more dots. -/
theorem c7_counterexample :
    ¬ shorten_title (shorten_title " ") = shorten_title " " ∧
      ¬ shorten_title (shorten_title "aaaaaaaaaaaaaaaaaaaaaaaaaaaaaaaaaaaaaa bb") =
          shorten_title "aaaaaaaaaaaaaaaaaaaaaaaaaaaaaaaaaaaaaa bb" := by
  refine ⟨by decide, by decide⟩

/-- Witness for `c7_shorten_title_conditional_idempotent` at a short clean
title. -/
theorem c7_witness :
    shorten_title "Alpha vs Beta" ≠ "" ∧
      (shorten_title "Alpha vs Beta").length ≤ 38 ∧
      shorten_title (shorten_title "Alpha vs Beta") = shorten_title "Alpha vs Beta" :=
  ⟨by decide, by decide,
    c7_shorten_title_conditional_idempotent "Alpha vs Beta" (by decide) (by decide)⟩
